import Mathlib

/-!
Shallow embedding of `src/study_m.py` (LearnMate AI): session/course
persistence model and its state transitions.

Modelling conventions:
* Python strings are Lean `String` (or `List Char` for character scans).
* The regex class `\d` used by the duration search is modelled as the
  ASCII decimal digits (`Char.isDigit`); the plan texts handled by the
  program use ASCII digits.
* Python `str(n)` on a nonnegative int is `pyStr` below (decimal digits).
* The file system is a map from path to file content; a file content is
  either a parsed JSON value (`json.load` succeeds) or unparsable raw
  text (`json.load` raises `JSONDecodeError`).  `json.dump` followed by
  `json.load` is the identity on JSON values, so files store the JSON
  value directly.
* Python dicts are association lists; lookup takes the first match and
  update replaces in place or appends, matching dict insertion-order
  semantics.
* Wall-clock timestamps (`time.strftime`) and the LLM chains are
  external inputs, passed as explicit parameters/oracles.
-/

/-- JSON values, as produced by `json.load`. -/
inductive Json where
  | null : Json
  | bool (b : Bool) : Json
  | num (n : Int) : Json
  | str (s : String) : Json
  | arr (elems : List Json) : Json
  | obj (fields : List (String × Json)) : Json

/-- Content of one on-disk file: either well-formed JSON or raw text on
which `json.load` raises `JSONDecodeError`. -/
inductive FileData where
  | valid (j : Json) : FileData
  | invalid (raw : String) : FileData

/-- The file system: a finite map from path to file content. -/
def FS : Type := String → Option FileData

/-- Write (create or overwrite) a file, as `open(filename, 'w')` + dump. -/
def FS.write (fs : FS) (p : String) (d : FileData) : FS :=
  fun q => if q = p then some d else fs q

/-- Remove a file, as `os.remove`. -/
def FS.remove (fs : FS) (p : String) : FS :=
  fun q => if q = p then none else fs q

/-- Rename a file, as `os.rename src dst`. -/
def FS.rename (fs : FS) (src dst : String) : FS :=
  fun q => if q = dst then fs src else if q = src then none else fs q

/-- Python dict lookup `d[k]` / `d.get(k)` on an association list. -/
def getKey {κ β : Type} [DecidableEq κ] : List (κ × β) → κ → Option β
  | [], _ => none
  | (k, v) :: rest, q => if k = q then some v else getKey rest q

/-- Python dict update `d[k] = v`: replace in place if the key is
present (insertion order kept), otherwise append at the end. -/
def setKey {κ β : Type} [DecidableEq κ] : List (κ × β) → κ → β → List (κ × β)
  | [], q, w => [(q, w)]
  | (k, v) :: rest, q, w =>
      if k = q then (k, w) :: rest else (k, v) :: setKey rest q w

/-- The digit character with code `48 + d`, for a decimal digit `d`. -/
def digitCharOf (d : Nat) : Char := Char.ofNat (48 + d)

/-- Fuel-driven digit accumulation; with fuel above `n` it produces the
decimal digits of `n` in front of `acc`. -/
def decDigitsAux : Nat → Nat → List Char → List Char
  | 0, _, acc => acc
  | fuel + 1, n, acc =>
      if n < 10 then digitCharOf n :: acc
      else decDigitsAux fuel (n / 10) (digitCharOf (n % 10) :: acc)

/-- Decimal digit string of a nonnegative integer, as Python `str(n)`
renders it (no leading zeros, `0 ↦ "0"`). -/
def decDigits (n : Nat) : List Char := decDigitsAux (n + 1) n []

/-- Python `str(n)` for a nonnegative int `n`. -/
def pyStr (n : Nat) : String := (decDigits n).asString

/-- Python `int(s)` on a string of decimal digits. -/
def intOfDigits (cs : List Char) : Nat :=
  cs.foldl (fun a c => 10 * a + (c.toNat - 48)) 0

/-- The first line of a text, as Python split-on-newline takes its
index 0: the characters before the first newline. -/
def firstLine (cs : List Char) : List Char := cs.takeWhile (· ≠ '\n')

/-- The regex search for `\d+` (line 95): the first maximal run of
decimal digits, `none` when the string has no digit. -/
def firstDigitRun : List Char → Option (List Char)
  | [] => none
  | c :: cs =>
      if c.isDigit then some (c :: cs.takeWhile Char.isDigit)
      else firstDigitRun cs

/-- A day key of the `daily_contents` dict: in the running program a
string, but an int key is representable (JSON serialization then
normalizes it to its decimal string). -/
inductive DayKey where
  | int (n : Nat) : DayKey
  | str (s : String) : DayKey
deriving DecidableEq

/-- One entry of `qa_history`. -/
structure QA where
  day : Nat
  question : String
  answer : String
  timestamp : String
deriving DecidableEq

/-- One course, as built by `create_new_course` and mutated by `main`. -/
structure Course where
  course_name : String
  level : String
  study_content : String
  study_plan : String
  created_at : String
  last_access : String
  duration : Nat
  progress_current_day : Nat
  progress_completed_days : List Nat
  daily_contents : List (DayKey × String)
  qa_history : List QA
deriving DecidableEq

/-- The per-session document `{courses, last_accessed_course}`. -/
structure Document where
  courses : List (String × Course)
  last_accessed_course : Option String
deriving DecidableEq

/-- The fresh document built by `init_session_data`. -/
def init_session_data : Document :=
  { courses := [], last_accessed_course := none }

/-- The course factory `create_new_course`; `now` stands for the
`time.strftime` timestamp. -/
def create_new_course (course_name level study_content study_plan_response : String)
    (now : String) : Course :=
  let duration :=
    match firstDigitRun (firstLine study_plan_response.data) with
    | some run => intOfDigits run
    | none => 20
  { course_name := course_name
    level := level
    study_content := study_content
    study_plan := study_plan_response
    created_at := now
    last_access := now
    duration := duration
    progress_current_day := 1
    progress_completed_days := []
    daily_contents := []
    qa_history := [] }

/-- Type of the `daily_chain.invoke` oracle: course name, level, study
content, day and question to generated text. -/
def GenFn : Type := String → String → String → String → String → String

/-- Type of the `llm.invoke(level_prompt)` oracle: course level and
question (the two parameters of the prompt) to the answer content. -/
def LlmFn : Type := String → String → String

/-- The backing file path `f"sessions/session_{session_id}.json"`. -/
def sessionFile (session_id : String) : String :=
  "sessions/session_" ++ session_id ++ ".json"

/-- Serialization of an `Option String` course pointer to JSON. -/
def lacToJson : Option String → Json
  | none => Json.null
  | some cid => Json.str cid

/-- The string a `daily_contents` key serializes to: `json.dump` renders
an int key as its decimal string and keeps a string key as is. -/
def dayKeyToString : DayKey → String
  | DayKey.int n => pyStr n
  | DayKey.str s => s

/-- Serialization of one `qa_history` entry. -/
def qaToJson (qa : QA) : Json :=
  Json.obj [("day", Json.num (Int.ofNat qa.day)),
            ("question", Json.str qa.question),
            ("answer", Json.str qa.answer),
            ("timestamp", Json.str qa.timestamp)]

/-- Serialization of one course, following the `serializable_data`
construction in `save_session_data` (the `str(...)` coercions there are
identities on the string fields) composed with `json.dump`. -/
def courseToJson (c : Course) : Json :=
  Json.obj [("course_name", Json.str c.course_name),
            ("level", Json.str c.level),
            ("study_content", Json.str c.study_content),
            ("study_plan", Json.str c.study_plan),
            ("created_at", Json.str c.created_at),
            ("last_access", Json.str c.last_access),
            ("duration", Json.num (Int.ofNat c.duration)),
            ("progress",
              Json.obj [("current_day", Json.num (Int.ofNat c.progress_current_day)),
                        ("completed_days",
                          Json.arr (c.progress_completed_days.map
                            (fun d => Json.num (Int.ofNat d))))]),
            ("daily_contents",
              Json.obj (c.daily_contents.map
                (fun kv => (dayKeyToString kv.1, Json.str kv.2)))),
            ("qa_history", Json.arr (c.qa_history.map qaToJson))]

/-- Serialization of a whole session document, as `save_session_data`
writes it. -/
def docToJson (d : Document) : Json :=
  Json.obj [("courses",
              Json.obj (d.courses.map (fun kv => (kv.1, courseToJson kv.2)))),
            ("last_accessed_course", lacToJson d.last_accessed_course)]

/-- Day keys normalized to strings, as serialization does. -/
def normalizeCourse (c : Course) : Course :=
  { c with daily_contents :=
      c.daily_contents.map (fun kv => (DayKey.str (dayKeyToString kv.1), kv.2)) }

/-- A document with every day key normalized to its string form; this is
the in-memory view a save/load round trip produces. -/
def normalizeDoc (d : Document) : Document :=
  { d with courses := d.courses.map (fun kv => (kv.1, normalizeCourse kv.2)) }

/-- The store operation `save_session_data`: writes the serialized
document, overwriting any prior file, and returns `True`.  (The pure
file-system model cannot raise, so the `except: return False` branch is
dead here.) -/
def save_session_data (fs : FS) (session_id : String) (data : Document) : FS × Bool :=
  (fs.write (sessionFile session_id) (FileData.valid (docToJson data)), true)

/-- The store operation `load_session_data`: returns the parsed file when it
exists and parses; renames an unparsable file to `<file>.backup` and
returns a fresh document; returns a fresh document when no file
exists. -/
def load_session_data (fs : FS) (session_id : String) : FS × Json :=
  match fs (sessionFile session_id) with
  | some (FileData.valid j) => (fs, j)
  | some (FileData.invalid _) =>
      (fs.rename (sessionFile session_id) (sessionFile session_id ++ ".backup"),
       docToJson init_session_data)
  | none => (fs, docToJson init_session_data)

/-- The store operation `delete_session_data`: removes the backing file if
present and returns `True`; returns `False` when it is absent. -/
def delete_session_data (fs : FS) (session_id : String) : FS × Bool :=
  match fs (sessionFile session_id) with
  | some _ => (fs.remove (sessionFile session_id), true)
  | none => (fs, false)

/-- The fresh course id built at line 276: the text course_ followed by
the decimal rendering of the current course count plus one. -/
def newCourseId (doc : Document) : String :=
  "course_" ++ pyStr (doc.courses.length + 1)

/-- The plan-generation step of `main`: store the new course under the
fresh id, point `last_accessed_course` at it.  (The subsequent
`save_session_data` call does not change the document.) -/
def generate_plan_step (doc : Document) (course : Course) : Document :=
  { courses := setKey doc.courses (newCourseId doc) course,
    last_accessed_course := some (newCourseId doc) }

/-- Replace the course stored under `cid` (the Python code mutates the
aliased dict value in place). -/
def updateCourseValue (doc : Document) (cid : String) (c : Course) : Document :=
  { doc with courses :=
      doc.courses.map (fun kv => if kv.1 = cid then (kv.1, c) else kv) }

/-- Storage of a generated text under the key `str(selected_day)` in
the `daily_contents` of a course, as line 376 does. -/
def storeDay (course : Course) (selected_day : Nat) (text : String) : Course :=
  let dc := setKey course.daily_contents (DayKey.str (pyStr selected_day)) text
  { course with daily_contents := dc }

/-- The day-content branch of `main` (lines 366-378): if
`str(selected_day)` is a key of `daily_contents` the stored text is
shown; otherwise `daily_chain.invoke` runs, its result is stored under
`str(selected_day)`, the document is saved, and the result is shown.
`gen course_name level study_content day question` is the
`daily_chain.invoke` oracle.  Returns the file system, the document, the
displayed text and the number of model-client invocations; `none` when
`cid` names no course (a `KeyError` in Python, unreachable in `main`). -/
def request_day_content (gen : GenFn)
    (fs : FS) (session_id : String) (doc : Document) (cid : String)
    (selected_day : Nat) : Option (FS × Document × String × Nat) :=
  match getKey doc.courses cid with
  | none => none
  | some course =>
      match getKey course.daily_contents (DayKey.str (pyStr selected_day)) with
      | some stored => some (fs, doc, stored, 0)
      | none =>
          let daily_content :=
            gen course.course_name course.level course.study_content
              (pyStr selected_day) ""
          let course' := storeDay course selected_day daily_content
          let doc' := updateCourseValue doc cid course'
          some ((save_session_data fs session_id doc').1, doc', daily_content, 1)

/-- One chat transcript entry of `st.session_state.chat_messages`. -/
structure ChatMsg where
  question : String
  answer : String

/-- Recording of a question/answer pair at the front of the
`qa_history` of a course (the insert at index 0, line 450). -/
def recordQA (course : Course) (selected_day : Nat) (question answer ts : String) : Course :=
  let qa : QA :=
    { day := selected_day, question := question, answer := answer, timestamp := ts }
  { course with qa_history := qa :: course.qa_history }

/-- The question handler `handle_question` (lines 424-459): with a
nonempty question, the answer of the LLM is inserted at the front of
the transient chat transcript and of the `qa_history` of the course,
then the document is saved.  `llm level question` is the
`llm.invoke(level_prompt)` oracle (the prompt is built from the course
level and the question); `ts` is the `time.strftime` timestamp.
Returns `none` when `cid` names no course. -/
def handle_question (llm : LlmFn)
    (fs : FS) (session_id : String) (doc : Document) (cid : String)
    (chat : List ChatMsg) (selected_day : Nat) (question ts : String) :
    Option (FS × Document × List ChatMsg) :=
  match getKey doc.courses cid with
  | none => none
  | some course =>
      if question = "" then some (fs, doc, chat)
      else
        let answer_content := llm course.level question
        let chat' := { question := question, answer := answer_content : ChatMsg } :: chat
        let course' := recordQA course selected_day question answer_content ts
        let doc' := updateCourseValue doc cid course'
        some ((save_session_data fs session_id doc').1, doc', chat')

/-- The session documents reachable by the program's operations:
initialization, plan generation, day-content generation, question
answering, and a save/load round trip (which normalizes day keys). -/
inductive Reachable : Document → Prop where
  | init : Reachable init_session_data
  | plan (doc : Document) (course : Course) :
      Reachable doc → Reachable (generate_plan_step doc course)
  | day (gen : GenFn)
      (fs : FS) (session_id : String) (doc : Document) (cid : String)
      (selected_day : Nat) (fs' : FS) (doc' : Document) (out : String) (n : Nat) :
      Reachable doc →
      request_day_content gen fs session_id doc cid selected_day =
        some (fs', doc', out, n) →
      Reachable doc'
  | question (llm : LlmFn)
      (fs : FS) (session_id : String) (doc : Document) (cid : String)
      (chat : List ChatMsg) (selected_day : Nat) (q ts : String)
      (fs' : FS) (doc' : Document) (chat' : List ChatMsg) :
      Reachable doc →
      handle_question llm fs session_id doc cid chat selected_day q ts =
        some (fs', doc', chat') →
      Reachable doc'
  | reload (doc : Document) : Reachable doc → Reachable (normalizeDoc doc)

/-- The course-id keys `course_1 .. course_n`, in insertion order. -/
def courseKeyList (n : Nat) : List String :=
  (List.range n).map (fun i => "course_" ++ pyStr (i + 1))

/-! ### Helper lemmas -/

theorem sessionFile_ne_backup (sid : String) :
    sessionFile sid ≠ sessionFile sid ++ ".backup" := by
  intro h
  have h2 := congrArg String.length h
  rw [String.length_append] at h2
  have h3 : ".backup".length = 7 := rfl
  omega

theorem takeWhile_all_append (p : Char → Bool) :
    ∀ (xs ys : List Char), (∀ c ∈ xs, p c = true) →
      (∀ c, ys.head? = some c → p c = false) →
      List.takeWhile p (xs ++ ys) = xs := by
  intro xs
  induction xs with
  | nil =>
    intro ys _ hy
    cases ys with
    | nil => rfl
    | cons y ys' =>
      simp [List.takeWhile, hy y rfl]
  | cons x xs ih =>
    intro ys hx hy
    have hpx : p x = true := hx x (List.mem_cons_self x xs)
    simp only [List.cons_append, List.takeWhile, hpx]
    simp only [List.append_eq]
    rw [ih ys (fun c hc => hx c (List.mem_cons_of_mem x hc)) hy]

theorem firstDigitRun_of_split :
    ∀ (pre run post : List Char), (∀ c ∈ pre, ¬ c.isDigit = true) →
      run ≠ [] → (∀ c ∈ run, c.isDigit = true) →
      (∀ c, post.head? = some c → ¬ c.isDigit = true) →
      firstDigitRun (pre ++ run ++ post) = some run := by
  intro pre
  induction pre with
  | nil =>
    intro run post _ hne hrun hpost
    cases run with
    | nil => exact absurd rfl hne
    | cons r rs =>
      have hr : r.isDigit = true := hrun r (List.mem_cons_self r rs)
      simp only [List.nil_append, List.cons_append, firstDigitRun, hr, if_pos]
      simp only [List.append_eq]
      rw [takeWhile_all_append Char.isDigit rs post
        (fun c hc => hrun c (List.mem_cons_of_mem r hc))
        (fun c hc => by
          have := hpost c hc
          exact Bool.not_eq_true _ ▸ eq_false_of_ne_true this)]
  | cons x xs ih =>
    intro run post hpre hne hrun hpost
    have hx : x.isDigit = false :=
      eq_false_of_ne_true (hpre x (List.mem_cons_self x xs))
    simp only [List.cons_append, firstDigitRun, hx]
    simp only [Bool.false_eq_true, if_false]
    exact ih run post (fun c hc => hpre c (List.mem_cons_of_mem x hc)) hne hrun hpost

theorem firstDigitRun_of_no_digit :
    ∀ cs : List Char, (∀ c ∈ cs, ¬ c.isDigit = true) → firstDigitRun cs = none := by
  intro cs
  induction cs with
  | nil => intro _; rfl
  | cons x xs ih =>
    intro h
    have hx : x.isDigit = false := eq_false_of_ne_true (h x (List.mem_cons_self x xs))
    simp only [firstDigitRun, hx, Bool.false_eq_true, if_false]
    exact ih (fun c hc => h c (List.mem_cons_of_mem x hc))

theorem digitCharOf_toNat (d : Nat) (h : d < 10) :
    (digitCharOf d).toNat = 48 + d := by
  interval_cases d <;> decide

theorem decDigitsAux_acc (fuel : Nat) :
    ∀ (n : Nat) (acc : List Char),
      decDigitsAux fuel n acc = decDigitsAux fuel n [] ++ acc := by
  induction fuel with
  | zero => intro n acc; rfl
  | succ fuel ih =>
    intro n acc
    by_cases h : n < 10
    · simp [decDigitsAux, h]
    · simp only [decDigitsAux, h, if_false]
      rw [ih (n / 10) (digitCharOf (n % 10) :: acc), ih (n / 10) [digitCharOf (n % 10)]]
      simp

theorem decDigitsAux_val (fuel : Nat) :
    ∀ n : Nat, n < fuel → ∀ a : Nat,
      List.foldl (fun acc c => 10 * acc + (c.toNat - 48)) a (decDigitsAux fuel n []) =
        a * 10 ^ (decDigitsAux fuel n []).length + n := by
  induction fuel with
  | zero => intro n h; omega
  | succ fuel ih =>
    intro n hn a
    by_cases h : n < 10
    · simp only [decDigitsAux, h, if_pos]
      simp [digitCharOf_toNat n h]
      omega
    · simp only [decDigitsAux, h, if_false]
      rw [decDigitsAux_acc fuel (n / 10) [digitCharOf (n % 10)]]
      rw [List.foldl_append, List.length_append]
      have h10 : n / 10 < n := Nat.div_lt_self (by omega) (by omega)
      rw [ih (n / 10) (by omega) a]
      simp only [List.foldl_cons, List.foldl_nil, List.length_cons, List.length_nil,
        digitCharOf_toNat (n % 10) (Nat.mod_lt n (by omega))]
      rw [pow_succ]
      have h1 : a * (10 ^ (decDigitsAux fuel (n / 10) []).length * 10) =
          10 * (a * 10 ^ (decDigitsAux fuel (n / 10) []).length) := by ring
      rw [h1]
      generalize a * 10 ^ (decDigitsAux fuel (n / 10) []).length = K
      omega

theorem decDigits_val (n : Nat) :
    List.foldl (fun acc c => 10 * acc + (c.toNat - 48)) 0 (decDigits n) = n := by
  have h := decDigitsAux_val (n + 1) n (by omega) 0
  simpa [decDigits] using h

theorem decDigits_injective : Function.Injective decDigits := by
  intro m n h
  have hm := decDigits_val m
  rw [h, decDigits_val] at hm
  omega

theorem pyStr_injective : Function.Injective pyStr := by
  intro m n h
  apply decDigits_injective
  have h2 := congrArg String.data h
  simpa [pyStr, List.asString] using h2

theorem map_eq_of_map_eq {α β γ : Type} {u : α → β} {v : α → γ}
    (huv : ∀ a b, u a = u b → v a = v b) :
    ∀ l1 l2 : List α, l1.map u = l2.map u → l1.map v = l2.map v := by
  intro l1
  induction l1 with
  | nil =>
    intro l2 h
    cases l2 with
    | nil => rfl
    | cons y ys => simp at h
  | cons x xs ih =>
    intro l2 h
    cases l2 with
    | nil => simp at h
    | cons y ys =>
      simp only [List.map_cons, List.cons.injEq] at h ⊢
      exact ⟨huv x y h.1, ih ys h.2⟩

theorem list_eq_of_map_eq {α β : Type} {u : α → β}
    (hu : ∀ a b, u a = u b → a = b) {l1 l2 : List α}
    (h : l1.map u = l2.map u) : l1 = l2 := by
  have h2 := map_eq_of_map_eq (v := id) (fun a b hab => hu a b hab) l1 l2 h
  simpa using h2

theorem qaToJson_injective (a b : QA) (h : qaToJson a = qaToJson b) : a = b := by
  cases a
  cases b
  simp only [qaToJson, Json.obj.injEq, List.cons.injEq, Prod.mk.injEq, Json.num.injEq,
    Json.str.injEq, Int.ofNat.injEq, true_and, and_true] at h
  simp only [QA.mk.injEq]
  exact ⟨h.1, h.2.1, h.2.2.1, h.2.2.2⟩

theorem courseToJson_normalizeCourse (c : Course) :
    courseToJson (normalizeCourse c) = courseToJson c := by
  cases c
  simp only [courseToJson, normalizeCourse, List.map_map]
  rfl

theorem courseToJson_eq_iff (c1 c2 : Course) :
    courseToJson c1 = courseToJson c2 ↔ normalizeCourse c1 = normalizeCourse c2 := by
  constructor
  · intro h
    cases c1
    cases c2
    simp only [courseToJson, Json.obj.injEq, List.cons.injEq, Prod.mk.injEq, Json.str.injEq,
      Json.num.injEq, Json.arr.injEq, Int.ofNat.injEq, true_and, and_true] at h
    obtain ⟨h1, h2, h3, h4, h5, h6, h7, ⟨h8, h9⟩, h10, h11⟩ := h
    simp only [normalizeCourse, Course.mk.injEq]
    refine ⟨h1, h2, h3, h4, h5, h6, h7, h8, ?_, ?_, ?_⟩
    · exact list_eq_of_map_eq (fun a b hab => by simpa using hab) h9
    · exact map_eq_of_map_eq
        (fun a b hab => by
          simp only [Prod.mk.injEq, Json.str.injEq] at hab
          simp [Prod.ext_iff, hab.1, hab.2]) _ _ h10
    · exact list_eq_of_map_eq qaToJson_injective h11
  · intro h
    rw [← courseToJson_normalizeCourse c1, ← courseToJson_normalizeCourse c2, h]

theorem lacToJson_injective (a b : Option String) (h : lacToJson a = lacToJson b) :
    a = b := by
  cases a <;> cases b <;> simp_all [lacToJson]

theorem docToJson_normalizeDoc (d : Document) :
    docToJson (normalizeDoc d) = docToJson d := by
  cases d
  simp only [docToJson, normalizeDoc, List.map_map, Json.obj.injEq]
  simp [Function.comp_def, courseToJson_normalizeCourse]

theorem docToJson_eq_iff (d1 d2 : Document) :
    docToJson d1 = docToJson d2 ↔ normalizeDoc d1 = normalizeDoc d2 := by
  constructor
  · intro h
    cases d1
    cases d2
    simp only [docToJson, Json.obj.injEq, List.cons.injEq, Prod.mk.injEq,
      true_and, and_true] at h
    obtain ⟨h1, h2⟩ := h
    simp only [normalizeDoc, Document.mk.injEq]
    refine ⟨?_, lacToJson_injective _ _ h2⟩
    exact map_eq_of_map_eq
      (fun a b hab => by
        simp only [Prod.mk.injEq] at hab
        have := (courseToJson_eq_iff a.2 b.2).1 hab.2
        simp [Prod.ext_iff, hab.1, this]) _ _ h1
  · intro h
    rw [← docToJson_normalizeDoc d1, ← docToJson_normalizeDoc d2, h]

theorem getKey_setKey_self {κ β : Type} [DecidableEq κ] :
    ∀ (l : List (κ × β)) (k : κ) (v : β), getKey (setKey l k v) k = some v := by
  intro l
  induction l with
  | nil => intro k v; simp [setKey, getKey]
  | cons kv rest ih =>
    intro k v
    cases kv with
    | mk a b =>
      by_cases h : a = k
      · rw [setKey, if_pos h, getKey, if_pos h]
      · rw [setKey, if_neg h, getKey, if_neg h]
        exact ih k v

theorem getKey_map_update_self {κ β : Type} [DecidableEq κ] :
    ∀ (l : List (κ × β)) (k : κ) (v w : β), getKey l k = some v →
      getKey (l.map (fun kv => if kv.1 = k then (kv.1, w) else kv)) k = some w := by
  intro l
  induction l with
  | nil => intro k v w h; simp [getKey] at h
  | cons kv rest ih =>
    intro k v w h
    cases kv with
    | mk a b =>
      by_cases hk : a = k
      · rw [List.map_cons]
        rw [show (if (a, b).1 = k then ((a, b).1, w) else (a, b)) = (a, w) from
          if_pos hk]
        rw [getKey, if_pos hk]
      · rw [getKey, if_neg hk] at h
        rw [List.map_cons]
        rw [show (if (a, b).1 = k then ((a, b).1, w) else (a, b)) = (a, b) from
          if_neg hk]
        rw [getKey, if_neg hk]
        exact ih k v w h

theorem getKey_map_update_other {κ β : Type} [DecidableEq κ] :
    ∀ (l : List (κ × β)) (k q : κ) (w : β), q ≠ k →
      getKey (l.map (fun kv => if kv.1 = k then (kv.1, w) else kv)) q = getKey l q := by
  intro l
  induction l with
  | nil => intro k q w _; rfl
  | cons kv rest ih =>
    intro k q w hqk
    cases kv with
    | mk a b =>
      by_cases hk : a = k
      · rw [List.map_cons]
        rw [show (if (a, b).1 = k then ((a, b).1, w) else (a, b)) = (a, w) from
          if_pos hk]
        have haq : ¬ a = q := fun h => hqk (h ▸ hk)
        rw [getKey, if_neg haq, getKey, if_neg haq]
        exact ih k q w hqk
      · rw [List.map_cons]
        rw [show (if (a, b).1 = k then ((a, b).1, w) else (a, b)) = (a, b) from
          if_neg hk]
        by_cases hq : a = q
        · rw [getKey, if_pos hq, getKey, if_pos hq]
        · rw [getKey, if_neg hq, getKey, if_neg hq]
          exact ih k q w hqk

theorem getKey_setKey_other {κ β : Type} [DecidableEq κ] :
    ∀ (l : List (κ × β)) (k q : κ) (v : β), q ≠ k →
      getKey (setKey l k v) q = getKey l q := by
  intro l
  induction l with
  | nil =>
    intro k q v hqk
    simp only [setKey, getKey]
    rw [if_neg (fun h => hqk h.symm)]
  | cons kv rest ih =>
    intro k q v hqk
    cases kv with
    | mk a b =>
      by_cases hk : a = k
      · subst hk
        simp only [setKey, if_pos rfl, getKey]
        rw [if_neg (fun h => hqk h.symm), if_neg (fun h => hqk h.symm)]
      · simp only [setKey, if_neg hk, getKey]
        by_cases hq : a = q
        · rw [if_pos hq, if_pos hq]
        · rw [if_neg hq, if_neg hq]
          exact ih k q v hqk

theorem getKey_eq_none_of_not_mem {κ β : Type} [DecidableEq κ] :
    ∀ (l : List (κ × β)) (k : κ), k ∉ l.map Prod.fst → getKey l k = none := by
  intro l
  induction l with
  | nil => intro k _; rfl
  | cons kv rest ih =>
    intro k hk
    rw [List.map_cons, List.mem_cons, not_or] at hk
    rw [getKey, if_neg (fun h => hk.1 h.symm)]
    exact ih k hk.2

theorem setKey_eq_append_of_not_mem {κ β : Type} [DecidableEq κ] :
    ∀ (l : List (κ × β)) (k : κ) (v : β), k ∉ l.map Prod.fst →
      setKey l k v = l ++ [(k, v)] := by
  intro l
  induction l with
  | nil => intro k v _; rfl
  | cons kv rest ih =>
    intro k v hk
    rw [List.map_cons, List.mem_cons, not_or] at hk
    rw [setKey, if_neg (fun h => hk.1 h.symm), List.cons_append]
    rw [ih k v hk.2]

/-- The course-id prefix-append is injective in the numeric suffix. -/
theorem courseId_inj {m n : Nat} (h : "course_" ++ pyStr m = "course_" ++ pyStr n) :
    m = n := by
  apply pyStr_injective
  have hd := congrArg String.data h
  simp only [String.data_append] at hd
  exact String.ext (List.append_cancel_left hd)

theorem keys_updateCourseValue (doc : Document) (cid : String) (c : Course) :
    (updateCourseValue doc cid c).courses.map Prod.fst = doc.courses.map Prod.fst := by
  simp only [updateCourseValue, List.map_map]
  apply List.map_congr_left
  intro kv _
  by_cases h : kv.1 = cid <;> simp [h]

theorem keys_normalizeDoc (doc : Document) :
    (normalizeDoc doc).courses.map Prod.fst = doc.courses.map Prod.fst := by
  simp only [normalizeDoc, List.map_map]
  apply List.map_congr_left
  intro kv _
  rfl

theorem request_day_content_keys (gen : GenFn) (fs : FS) (sid : String)
    (doc : Document) (cid : String) (day : Nat) (fs' : FS) (doc' : Document)
    (out : String) (n : Nat)
    (h : request_day_content gen fs sid doc cid day = some (fs', doc', out, n)) :
    doc'.courses.map Prod.fst = doc.courses.map Prod.fst := by
  cases hc : getKey doc.courses cid with
  | none => simp [request_day_content, hc] at h
  | some course =>
    cases hd : getKey course.daily_contents (DayKey.str (pyStr day)) with
    | some stored =>
      simp only [request_day_content, hc, hd, Option.some.injEq, Prod.mk.injEq] at h
      rw [← h.2.1]
    | none =>
      simp only [request_day_content, hc, hd, Option.some.injEq, Prod.mk.injEq] at h
      rw [← h.2.1]
      exact keys_updateCourseValue doc cid _

theorem handle_question_keys (llm : LlmFn) (fs : FS) (sid : String)
    (doc : Document) (cid : String) (chat : List ChatMsg) (day : Nat)
    (q ts : String) (fs' : FS) (doc' : Document) (chat' : List ChatMsg)
    (h : handle_question llm fs sid doc cid chat day q ts = some (fs', doc', chat')) :
    doc'.courses.map Prod.fst = doc.courses.map Prod.fst := by
  cases hc : getKey doc.courses cid with
  | none => simp [handle_question, hc] at h
  | some course =>
    by_cases hq : q = ""
    · simp only [handle_question, hc, if_pos hq, Option.some.injEq, Prod.mk.injEq] at h
      rw [← h.2.1]
    · simp only [handle_question, hc, if_neg hq, Option.some.injEq, Prod.mk.injEq] at h
      rw [← h.2.1]
      exact keys_updateCourseValue doc cid _

/-- Invariant of reachable documents: the course keys are exactly
`course_1 .. course_n` in insertion order, where `n` is the number of
courses. -/
theorem reachable_keys (doc : Document) (h : Reachable doc) :
    doc.courses.map Prod.fst = courseKeyList doc.courses.length := by
  induction h with
  | init => rfl
  | plan doc course hr ih =>
    have hfresh : newCourseId doc ∉ doc.courses.map Prod.fst := by
      rw [ih, courseKeyList, newCourseId]
      intro hmem
      rw [List.mem_map] at hmem
      obtain ⟨i, hi, hid⟩ := hmem
      rw [List.mem_range] at hi
      have := courseId_inj hid
      omega
    have happ : (generate_plan_step doc course).courses =
        doc.courses ++ [(newCourseId doc, course)] := by
      rw [generate_plan_step]
      exact setKey_eq_append_of_not_mem doc.courses (newCourseId doc) course hfresh
    rw [happ, List.map_append, List.length_append, ih]
    simp only [List.map_cons, List.map_nil, List.length_cons, List.length_nil]
    have hlen : doc.courses.length = (doc.courses.map Prod.fst).length :=
      (List.length_map _ _).symm
    rw [courseKeyList, courseKeyList, List.range_succ, List.map_append]
    simp [newCourseId]
  | day gen fs sid doc cid day fs' doc' out n hr hreq ih =>
    have hk := request_day_content_keys gen fs sid doc cid day fs' doc' out n hreq
    have hlen : doc'.courses.length = doc.courses.length := by
      have := congrArg List.length hk
      simpa using this
    rw [hk, hlen, ih]
  | question llm fs sid doc cid chat day q ts fs' doc' chat' hr hq ih =>
    have hk := handle_question_keys llm fs sid doc cid chat day q ts fs' doc' chat' hq
    have hlen : doc'.courses.length = doc.courses.length := by
      have := congrArg List.length hk
      simpa using this
    rw [hk, hlen, ih]
  | reload doc hr ih =>
    have hk := keys_normalizeDoc doc
    have hlen : (normalizeDoc doc).courses.length = doc.courses.length := by
      have := congrArg List.length hk
      simpa using this
    rw [hk, hlen, ih]

/-! ### Claim theorems -/

/-- C3: saving a document then loading it back for the same session id
yields exactly the serialized document; serialization is invariant under
day-key normalization and identifies two documents precisely when they
agree after day-number keys are normalized to strings — so the loaded
document is equal in content to the saved one modulo that
normalization. -/
theorem c3_save_load_round_trip (fs : FS) (sid : String) (doc : Document) :
    (load_session_data (save_session_data fs sid doc).1 sid).2 = docToJson doc
    ∧ docToJson (normalizeDoc doc) = docToJson doc
    ∧ (∀ d1 d2 : Document,
        docToJson d1 = docToJson d2 ↔ normalizeDoc d1 = normalizeDoc d2) := by
  refine ⟨?_, docToJson_normalizeDoc doc, docToJson_eq_iff⟩
  simp [save_session_data, load_session_data, FS.write]

/-- C4: for a course present in the document, requesting day N twice
without clearing the document calls the model exactly once when the key
`str(N)` is initially absent and zero times when it is present; a hit
returns the stored text verbatim with no call and no state change; a
miss stores the generated text under `str(N)` and persists the whole
updated document to the session file; the second request returns the
same text as the first. -/
theorem c4_day_content_memoization (gen : GenFn) (fs : FS) (sid : String)
    (doc : Document) (cid : String) (day : Nat) (course : Course)
    (hc : getKey doc.courses cid = some course) :
    ∃ fs1 doc1 out1 n1 fs2 doc2 out2 n2,
      request_day_content gen fs sid doc cid day = some (fs1, doc1, out1, n1)
      ∧ request_day_content gen fs1 sid doc1 cid day = some (fs2, doc2, out2, n2)
      ∧ out2 = out1
      ∧ n2 = 0
      ∧ (∀ stored, getKey course.daily_contents (DayKey.str (pyStr day)) = some stored →
          n1 = 0 ∧ out1 = stored ∧ fs1 = fs ∧ doc1 = doc)
      ∧ (getKey course.daily_contents (DayKey.str (pyStr day)) = none →
          n1 = 1
          ∧ out1 = gen course.course_name course.level course.study_content (pyStr day) ""
          ∧ (∃ course1, getKey doc1.courses cid = some course1
              ∧ getKey course1.daily_contents (DayKey.str (pyStr day)) = some out1)
          ∧ fs1 (sessionFile sid) = some (FileData.valid (docToJson doc1))) := by
  cases hd : getKey course.daily_contents (DayKey.str (pyStr day)) with
  | some stored =>
    refine ⟨fs, doc, stored, 0, fs, doc, stored, 0, ?_, ?_, rfl, rfl, ?_, ?_⟩
    · simp [request_day_content, hc, hd]
    · simp [request_day_content, hc, hd]
    · intro stored' h'
      injection h' with h''
      exact ⟨rfl, h'', rfl, rfl⟩
    · intro h'
      simp at h'
  | none =>
    set out := gen course.course_name course.level course.study_content (pyStr day) ""
      with hout
    set course' := storeDay course day out with hcourse'
    set doc1 := updateCourseValue doc cid course' with hdoc1
    have hreq1 : request_day_content gen fs sid doc cid day =
        some ((save_session_data fs sid doc1).1, doc1, out, 1) := by
      simp only [request_day_content, hc, hd]
    have hc1 : getKey doc1.courses cid = some course' :=
      getKey_map_update_self doc.courses cid course course' hc
    have hd1 : getKey course'.daily_contents (DayKey.str (pyStr day)) = some out := by
      rw [hcourse']
      simp only [storeDay]
      exact getKey_setKey_self course.daily_contents (DayKey.str (pyStr day)) out
    have hreq2 : request_day_content gen (save_session_data fs sid doc1).1 sid
        doc1 cid day =
        some ((save_session_data fs sid doc1).1, doc1, out, 0) := by
      simp [request_day_content, hc1, hd1]
    refine ⟨(save_session_data fs sid doc1).1, doc1, out, 1,
            (save_session_data fs sid doc1).1, doc1, out, 0,
            hreq1, hreq2, rfl, rfl, ?_, ?_⟩
    · intro stored h'
      simp at h'
    · intro _
      refine ⟨rfl, rfl, ⟨course', hc1, hd1⟩, ?_⟩
      simp [save_session_data, FS.write]

/-- Witness for C4 at a one-course document with empty day contents. -/
theorem c4_witness :
    (getKey
      (Document.mk [("course_1", create_new_course "a" "l" "c" "2" "t")]
        (some "course_1")).courses "course_1" =
      some (create_new_course "a" "l" "c" "2" "t"))
    ∧ (∃ fs1 doc1 out1 n1 fs2 doc2 out2 n2,
        request_day_content (fun _ _ _ _ _ => "text") (fun _ => none) "u"
          (Document.mk [("course_1", create_new_course "a" "l" "c" "2" "t")]
            (some "course_1")) "course_1" 1 = some (fs1, doc1, out1, n1)
        ∧ request_day_content (fun _ _ _ _ _ => "text") fs1 "u" doc1 "course_1" 1 =
            some (fs2, doc2, out2, n2)
        ∧ out2 = out1
        ∧ n2 = 0
        ∧ (∀ stored,
            getKey (create_new_course "a" "l" "c" "2" "t").daily_contents
              (DayKey.str (pyStr 1)) = some stored →
            n1 = 0 ∧ out1 = stored ∧ fs1 = (fun _ => none : FS) ∧
            doc1 = Document.mk [("course_1", create_new_course "a" "l" "c" "2" "t")]
              (some "course_1"))
        ∧ (getKey (create_new_course "a" "l" "c" "2" "t").daily_contents
              (DayKey.str (pyStr 1)) = none →
            n1 = 1
            ∧ out1 = "text"
            ∧ (∃ course1, getKey doc1.courses "course_1" = some course1
                ∧ getKey course1.daily_contents (DayKey.str (pyStr 1)) = some out1)
            ∧ fs1 (sessionFile "u") = some (FileData.valid (docToJson doc1)))) :=
  ⟨rfl,
   c4_day_content_memoization (fun _ _ _ _ _ => "text") (fun _ => none) "u"
     (Document.mk [("course_1", create_new_course "a" "l" "c" "2" "t")]
       (some "course_1")) "course_1" 1 (create_new_course "a" "l" "c" "2" "t") rfl⟩

/-- C5: for a course present in the document, answering question Q1 and
then Q2 (both nonempty) leaves the Q&A history with the Q2 entry first
and the Q1 entry second, followed by the previous history unchanged and
in order: insertion is append-only at the front. -/
theorem c5_qa_insertion_order (llm : LlmFn) (fs : FS) (sid : String)
    (doc : Document) (cid : String) (chat : List ChatMsg) (day1 day2 : Nat)
    (q1 q2 ts1 ts2 : String) (course : Course)
    (hc : getKey doc.courses cid = some course)
    (hq1 : q1 ≠ "") (hq2 : q2 ≠ "") :
    ∃ fs1 doc1 chat1 fs2 doc2 chat2 course2,
      handle_question llm fs sid doc cid chat day1 q1 ts1 = some (fs1, doc1, chat1)
      ∧ handle_question llm fs1 sid doc1 cid chat1 day2 q2 ts2 = some (fs2, doc2, chat2)
      ∧ getKey doc2.courses cid = some course2
      ∧ course2.qa_history =
          QA.mk day2 q2 (llm course.level q2) ts2
            :: QA.mk day1 q1 (llm course.level q1) ts1
            :: course.qa_history := by
  set course1 := recordQA course day1 q1 (llm course.level q1) ts1 with hcourse1
  set doc1 := updateCourseValue doc cid course1 with hdoc1
  have h1 : handle_question llm fs sid doc cid chat day1 q1 ts1 =
      some ((save_session_data fs sid doc1).1, doc1,
        ChatMsg.mk q1 (llm course.level q1) :: chat) := by
    simp only [handle_question, hc, if_neg hq1]
  have hc1 : getKey doc1.courses cid = some course1 :=
    getKey_map_update_self doc.courses cid course course1 hc
  have hlevel : course1.level = course.level := rfl
  set course2 := recordQA course1 day2 q2 (llm course1.level q2) ts2 with hcourse2
  set doc2 := updateCourseValue doc1 cid course2 with hdoc2
  have h2 : handle_question llm (save_session_data fs sid doc1).1 sid doc1 cid
      (ChatMsg.mk q1 (llm course.level q1) :: chat) day2 q2 ts2 =
      some ((save_session_data (save_session_data fs sid doc1).1 sid doc2).1, doc2,
        ChatMsg.mk q2 (llm course1.level q2)
          :: ChatMsg.mk q1 (llm course.level q1) :: chat) := by
    simp only [handle_question, hc1, if_neg hq2]
  have hc2 : getKey doc2.courses cid = some course2 :=
    getKey_map_update_self doc1.courses cid course1 course2 hc1
  refine ⟨(save_session_data fs sid doc1).1, doc1,
    ChatMsg.mk q1 (llm course.level q1) :: chat,
    (save_session_data (save_session_data fs sid doc1).1 sid doc2).1, doc2,
    ChatMsg.mk q2 (llm course1.level q2)
      :: ChatMsg.mk q1 (llm course.level q1) :: chat,
    course2, h1, h2, hc2, ?_⟩
  rw [hcourse2, hcourse1]
  simp [recordQA]

/-- Witness for C5 at a one-course document and questions `"Q1"`,
`"Q2"`. -/
theorem c5_witness :
    (getKey
      (Document.mk [("course_1", create_new_course "a" "l" "c" "2" "t")]
        (some "course_1")).courses "course_1" =
      some (create_new_course "a" "l" "c" "2" "t"))
    ∧ ("Q1" : String) ≠ "" ∧ ("Q2" : String) ≠ ""
    ∧ (∃ fs1 doc1 chat1 fs2 doc2 chat2 course2,
        handle_question (fun _ q => "ans-" ++ q) (fun _ => none) "u"
          (Document.mk [("course_1", create_new_course "a" "l" "c" "2" "t")]
            (some "course_1")) "course_1" [] 1 "Q1" "t1" = some (fs1, doc1, chat1)
        ∧ handle_question (fun _ q => "ans-" ++ q) fs1 "u" doc1 "course_1" chat1
            2 "Q2" "t2" = some (fs2, doc2, chat2)
        ∧ getKey doc2.courses "course_1" = some course2
        ∧ course2.qa_history =
            QA.mk 2 "Q2" ((fun _ q => "ans-" ++ q) (create_new_course "a" "l" "c" "2" "t").level "Q2") "t2"
              :: QA.mk 1 "Q1" ((fun _ q => "ans-" ++ q) (create_new_course "a" "l" "c" "2" "t").level "Q1") "t1"
              :: (create_new_course "a" "l" "c" "2" "t").qa_history) :=
  ⟨rfl, by decide, by decide,
   c5_qa_insertion_order (fun _ q => "ans-" ++ q) (fun _ => none) "u"
     (Document.mk [("course_1", create_new_course "a" "l" "c" "2" "t")]
       (some "course_1")) "course_1" [] 1 2 "Q1" "Q2" "t1" "t2"
     (create_new_course "a" "l" "c" "2" "t") rfl (by decide) (by decide)⟩

/-- C1: the duration of a created course is the integer value of the
first maximal run of decimal digits in the first line of the plan text
(characterised declaratively: no digit before the run, the run all
digits and not extendable to the right), and is 20 when the first line
has no digit at all (which covers the empty plan text). -/
theorem c1_duration_extraction (course_name level study_content plan now : String) :
    (∀ pre run post,
        firstLine plan.data = pre ++ run ++ post →
        (∀ c ∈ pre, ¬ c.isDigit = true) → run ≠ [] →
        (∀ c ∈ run, c.isDigit = true) →
        (∀ c, post.head? = some c → ¬ c.isDigit = true) →
        (create_new_course course_name level study_content plan now).duration =
          intOfDigits run)
    ∧ ((∀ c ∈ firstLine plan.data, ¬ c.isDigit = true) →
        (create_new_course course_name level study_content plan now).duration = 20) := by
  constructor
  · intro pre run post hsplit hpre hne hrun hpost
    have hfr : firstDigitRun (firstLine plan.data) = some run := by
      rw [hsplit]
      exact firstDigitRun_of_split pre run post hpre hne hrun hpost
    simp [create_new_course, hfr]
  · intro hnod
    have hfr : firstDigitRun (firstLine plan.data) = none :=
      firstDigitRun_of_no_digit _ hnod
    simp [create_new_course, hfr]

/-- Witness for C1 at plan text `"15\nrest"`: first line `"15"` gives
duration 15. -/
theorem c1_witness :
    (firstLine ("15\nrest" : String).data = [] ++ ['1', '5'] ++ [])
    ∧ (create_new_course "a" "l" "c" "15\nrest" "t").duration = intOfDigits ['1', '5']
    ∧ intOfDigits ['1', '5'] = 15 :=
  ⟨by decide,
   (c1_duration_extraction "a" "l" "c" "15\nrest" "t").1 [] ['1', '5'] []
     (by decide) (by simp) (by decide) (by decide) (by simp),
   by decide⟩

/-- C7: loading a session id with no backing file returns an empty
document equal to a freshly initialized one (`courses` is the empty
mapping, `last_accessed_course` is null), and the file system is
returned unchanged (no file is created as a side effect). -/
theorem c7_load_missing_file (fs : FS) (sid : String)
    (h : fs (sessionFile sid) = none) :
    load_session_data fs sid =
      (fs, Json.obj [("courses", Json.obj []), ("last_accessed_course", Json.null)])
    ∧ (load_session_data fs sid).2 = docToJson init_session_data := by
  constructor <;>
    simp [load_session_data, h, docToJson, init_session_data, lacToJson]

/-- Witness for C7 at the empty file system and session id `"u"`. -/
theorem c7_witness :
    ((fun _ => none : FS) (sessionFile "u") = none)
    ∧ load_session_data (fun _ => none : FS) "u" =
        ((fun _ => none : FS),
         Json.obj [("courses", Json.obj []), ("last_accessed_course", Json.null)]) :=
  ⟨rfl, (c7_load_missing_file (fun _ => none) "u" rfl).1⟩

/-- C10: load performs no schema validation: whenever the backing file
parses as JSON, the parsed value is returned verbatim as the document,
whatever its shape, and the file system is unchanged. -/
theorem c10_load_no_schema_validation (fs : FS) (sid : String) (j : Json)
    (h : fs (sessionFile sid) = some (FileData.valid j)) :
    load_session_data fs sid = (fs, j) := by
  simp [load_session_data, h]

/-- Witness for C10: a backing file holding the JSON list `[3]`, not of
the documented document shape, is returned verbatim. -/
theorem c10_witness :
    ((fun p => if p = sessionFile "w" then
        some (FileData.valid (Json.arr [Json.num 3])) else none : FS)
      (sessionFile "w") = some (FileData.valid (Json.arr [Json.num 3])))
    ∧ load_session_data
        (fun p => if p = sessionFile "w" then
          some (FileData.valid (Json.arr [Json.num 3])) else none : FS) "w" =
        ((fun p => if p = sessionFile "w" then
          some (FileData.valid (Json.arr [Json.num 3])) else none : FS),
         Json.arr [Json.num 3]) :=
  ⟨by simp, c10_load_no_schema_validation _ "w" _ (by simp)⟩

/-- C6: loading a session id whose backing file holds invalid JSON
renames the file to its `.backup` sibling and returns a freshly
initialized empty document; afterwards the corrupted file no longer
exists at its original path, the backup holds the corrupted content,
and no other path changes. -/
theorem c6_load_corrupt_backup (fs : FS) (sid raw : String)
    (h : fs (sessionFile sid) = some (FileData.invalid raw)) :
    (load_session_data fs sid).2 = docToJson init_session_data
    ∧ (load_session_data fs sid).1 (sessionFile sid) = none
    ∧ (load_session_data fs sid).1 (sessionFile sid ++ ".backup") =
        some (FileData.invalid raw)
    ∧ ∀ p, p ≠ sessionFile sid → p ≠ sessionFile sid ++ ".backup" →
        (load_session_data fs sid).1 p = fs p := by
  have hne := sessionFile_ne_backup sid
  refine ⟨by simp [load_session_data, h], ?_, ?_, ?_⟩
  · simp [load_session_data, h, FS.rename, hne]
  · simp [load_session_data, h, FS.rename]
  · intro p hp1 hp2
    simp [load_session_data, h, FS.rename, hp1, hp2]

/-- Witness for C6 at a concrete corrupted file. -/
theorem c6_witness :
    ((fun p => if p = sessionFile "u" then
        some (FileData.invalid "oops") else none : FS)
      (sessionFile "u") = some (FileData.invalid "oops"))
    ∧ (load_session_data
        (fun p => if p = sessionFile "u" then
          some (FileData.invalid "oops") else none : FS) "u").1
        (sessionFile "u") = none
    ∧ (load_session_data
        (fun p => if p = sessionFile "u" then
          some (FileData.invalid "oops") else none : FS) "u").1
        (sessionFile "u" ++ ".backup") = some (FileData.invalid "oops") :=
  ⟨by simp,
   (c6_load_corrupt_backup _ "u" "oops" (by simp)).2.1,
   (c6_load_corrupt_backup _ "u" "oops" (by simp)).2.2.1⟩

/-- C8: delete returns true exactly when a backing file exists; when it
does, the file is removed (other paths untouched); when it does not,
false is returned and the file system is unchanged. -/
theorem c8_delete_spec (fs : FS) (sid : String) :
    ((delete_session_data fs sid).2 = true ↔ (fs (sessionFile sid)).isSome = true)
    ∧ ((fs (sessionFile sid)).isSome = true →
        (delete_session_data fs sid).1 (sessionFile sid) = none
        ∧ ∀ p, p ≠ sessionFile sid → (delete_session_data fs sid).1 p = fs p)
    ∧ (fs (sessionFile sid) = none →
        (delete_session_data fs sid).1 = fs
        ∧ (delete_session_data fs sid).2 = false) := by
  cases hf : fs (sessionFile sid) with
  | none => simp [delete_session_data, hf]
  | some d =>
    refine ⟨by simp [delete_session_data, hf], ?_, by simp [hf]⟩
    intro _
    constructor
    · simp [delete_session_data, hf, FS.remove]
    · intro p hp
      simp [delete_session_data, hf, FS.remove, hp]

/-- Witness for C8: deleting an existing backing file removes it and
reports success. -/
theorem c8_witness :
    (((fun p => if p = sessionFile "u" then
        some (FileData.valid Json.null) else none : FS)
      (sessionFile "u")).isSome = true)
    ∧ (delete_session_data
        (fun p => if p = sessionFile "u" then
          some (FileData.valid Json.null) else none : FS) "u").1
        (sessionFile "u") = none :=
  ⟨by simp,
   ((c8_delete_spec (fun p => if p = sessionFile "u" then
      some (FileData.valid Json.null) else none) "u").2.1 (by simp)).1⟩

/-- C9: for every document reachable by the program's operations,
generating a new plan inserts the new course under a course-id that is
not already present in the courses mapping, appends it after all
existing entries — so every existing course entry is unchanged — and
leaves the lookup of every other key as it was. -/
theorem c9_new_plan_never_overwrites (doc : Document) (course : Course)
    (h : Reachable doc) :
    getKey doc.courses (newCourseId doc) = none
    ∧ newCourseId doc ∉ doc.courses.map Prod.fst
    ∧ (generate_plan_step doc course).courses =
        doc.courses ++ [(newCourseId doc, course)]
    ∧ (∀ k, k ≠ newCourseId doc →
        getKey (generate_plan_step doc course).courses k = getKey doc.courses k) := by
  have hkeys := reachable_keys doc h
  have hfresh : newCourseId doc ∉ doc.courses.map Prod.fst := by
    rw [hkeys, courseKeyList, newCourseId]
    intro hmem
    rw [List.mem_map] at hmem
    obtain ⟨i, hi, hid⟩ := hmem
    rw [List.mem_range] at hi
    have := courseId_inj hid
    omega
  refine ⟨getKey_eq_none_of_not_mem doc.courses _ hfresh, hfresh, ?_, ?_⟩
  · simp only [generate_plan_step]
    exact setKey_eq_append_of_not_mem doc.courses _ course hfresh
  · intro k hk
    simp only [generate_plan_step]
    exact getKey_setKey_other doc.courses (newCourseId doc) k course hk

/-- Witness for C9 at the freshly initialized document. -/
theorem c9_witness :
    getKey init_session_data.courses (newCourseId init_session_data) = none
    ∧ (generate_plan_step init_session_data
        (create_new_course "a" "l" "c" "5" "t")).courses =
        init_session_data.courses ++
          [(newCourseId init_session_data, create_new_course "a" "l" "c" "5" "t")] :=
  ⟨(c9_new_plan_never_overwrites init_session_data
      (create_new_course "a" "l" "c" "5" "t") Reachable.init).1,
   (c9_new_plan_never_overwrites init_session_data
      (create_new_course "a" "l" "c" "5" "t") Reachable.init).2.2.1⟩

/-- C2 counterexample: a plan text whose first line is `"0"` yields a
course whose duration is 0, which is not strictly positive; the claim
that every created course has a positive duration is false. -/
theorem c2_counterexample :
    ¬ (0 < (create_new_course "python" "lvl" "basics" "0\nDay 1: intro" "t").duration) := by
  decide

/-- C2 amended: the duration of a created course is a nonnegative
integer, and it is strictly positive unless the first run of decimal
digits on the first line of the plan text has numeric value 0, in which
case the duration is 0. -/
theorem c2_amended_duration (course_name level study_content plan now : String) :
    0 < (create_new_course course_name level study_content plan now).duration
    ∨ ((create_new_course course_name level study_content plan now).duration = 0
       ∧ ∃ run, firstDigitRun (firstLine plan.data) = some run ∧ intOfDigits run = 0) := by
  cases hr : firstDigitRun (firstLine plan.data) with
  | none =>
    left
    simp [create_new_course, hr]
  | some run =>
    rcases Nat.eq_zero_or_pos (intOfDigits run) with h0 | hpos
    · right
      exact ⟨by simp [create_new_course, hr, h0], run, rfl, h0⟩
    · left
      simpa [create_new_course, hr] using hpos
